import Mathlib

/-!
Verification of the tariff/bill computation engine (`tariff_calculator.py`,
`loadOEDIData.py`) against its natural-language specification.

Shallow embedding conventions:
* timestamps are naive minutes since 1970-01-01 00:00 plain `Nat`s;
  `pd.Timestamp("2018-01-01")` is day 17532 since the epoch and
  1970-01-01 was a Thursday, which is weekday 3 in pandas (Monday = 0);
* money and energy are exact rationals (`ℚ`), modelling the real-number
  semantics of the float computations;
* a batch of interval records (`ts_df`) is a `List` of records, and a pandas
  `Series` of per-interval prices is a `List ℚ` positionally aligned with it;
* `pd.DataFrame.groupby(key).sum()` is modelled as: sorted deduplicated keys,
  one output row per key, each numeric column summed over the key's rows;
* file I/O (reading a parquet / CSV) is modelled by passing the loaded data,
  or a loader function, as an explicit argument.
-/

/-- Day index of a timestamp (days since 1970-01-01); timestamps are naive
minutes since 1970-01-01 00:00, kept as plain `Nat`. -/
def dayOf (t : Nat) : Nat := t / 1440

/-- Hour of day of a timestamp, as `pandas .dt.hour`. -/
def hourOf (t : Nat) : Nat := (t / 60) % 24

/-- Weekday of a timestamp, as `pandas .dt.weekday` (Monday = 0):
1970-01-01 was a Thursday (= 3). -/
def weekdayOf (t : Nat) : Nat := (dayOf t + 3) % 7

/-- Day index of 2018-01-01 (a Monday): 48 years of which 12 leap. -/
def day20180101 : Nat := 17532

/-- Day index of 2018-04-30. -/
def day20180430 : Nat := day20180101 + 119

/-- Day index of 2018-05-01. -/
def day20180501 : Nat := day20180101 + 120

/-- Day index of 2018-10-31. -/
def day20181031 : Nat := day20180101 + 303

/-- Day index of 2018-11-01. -/
def day20181101 : Nat := day20180101 + 304

/-- Day index of 2018-12-31. -/
def day20181231 : Nat := day20180101 + 364

/-! ## Flat seasonal tariff (`price_flat`) -/

/-- Winter rate 0.12673 $/kWh. -/
def rateJanApr : ℚ := mkRat 12673 100000

/-- Summer rate 0.10870 $/kWh. -/
def rateMayOct : ℚ := mkRat 10870 100000

/-- Late-year rate 0.13718 $/kWh. -/
def rateNovDec : ℚ := mkRat 13718 100000

/-- One masking pass `prices[mask] = rate` of `price_flat`, where
`mask = (timestamps >= start_ts) & (timestamps < end_ts)`. -/
def applyWindow (s e : Nat) (r : ℚ) (tsl : List Nat) (ps : List ℚ) : List ℚ :=
  List.zipWith (fun t p => if s ≤ t ∧ t < e then r else p) tsl ps

/-- `price_flat`: prices start at the zero array and each entry of the
`time_windows` loop overwrites the rows its mask selects (the literal
three-element loop is unrolled; the window bounds are the midnights of the
quoted dates, exactly as `pd.Timestamp("2018-01-01")` etc.). -/
def price_flat (tsl : List Nat) : List ℚ :=
  applyWindow (day20181101 * 1440) (day20181231 * 1440) rateNovDec tsl
    (applyWindow (day20180501 * 1440) (day20181031 * 1440) rateMayOct tsl
      (applyWindow (day20180101 * 1440) (day20180430 * 1440) rateJanApr tsl
        (tsl.map (fun _ => 0))))

/-- Window price of one timestamp, following the spec's words (amended to the
half-open windows the code implements): the first window whose half-open
interval `[start, end-date midnight)` contains the timestamp gives the rate,
and a timestamp outside all three windows gets price 0. -/
def flatWindowPrice (t : Nat) : ℚ :=
  if day20180101 * 1440 ≤ t ∧ t < day20180430 * 1440 then rateJanApr
  else if day20180501 * 1440 ≤ t ∧ t < day20181031 * 1440 then rateMayOct
  else if day20181101 * 1440 ≤ t ∧ t < day20181231 * 1440 then rateNovDec
  else 0

theorem applyWindow_map (s e : Nat) (r : ℚ) (tsl : List Nat) (f : Nat → ℚ) :
    applyWindow s e r tsl (tsl.map f) =
      tsl.map (fun t => if s ≤ t ∧ t < e then r else f t) := by
  induction tsl with
  | nil => rfl
  | cons t l ih =>
      simp only [applyWindow, List.map_cons, List.zipWith_cons_cons] at *
      rw [ih]

/-- The masking passes of `price_flat` compute the pointwise window price:
the three windows are pairwise disjoint, so the sequential overwrites agree
with the first-match if-chain. -/
theorem price_flat_eq_map (tsl : List Nat) :
    price_flat tsl = tsl.map flatWindowPrice := by
  simp only [price_flat]
  rw [applyWindow_map, applyWindow_map, applyWindow_map]
  apply List.map_congr_left
  intro t _
  dsimp only
  simp only [flatWindowPrice, day20180101, day20180430, day20180501, day20181031,
    day20181101, day20181231]
  split_ifs <;> first | rfl | omega

/-! ## Time-of-use tariff with conservation events (`price_tou_simple`) -/

/-- Keyword parameters of `price_tou_simple` (the seed is passed alongside). -/
structure TouParams where
  offpeak_rate : ℚ
  peak_rate : ℚ
  peak_start : Nat
  peak_end : Nat
  conservation_rate : ℚ
  conservation_hours : Nat
  random_seed : Nat
deriving Repr, DecidableEq

/-- The default keyword values of `price_tou_simple`. -/
def defaultTou : TouParams :=
  { offpeak_rate := mkRat 991 10000, peak_rate := mkRat 1211 10000,
    peak_start := 8, peak_end := 20,
    conservation_rate := mkRat 6137 10000, conservation_hours := 8,
    random_seed := 100 }

/-- `is_peak = (hours >= start) & (hours < end) & (~is_weekend)`. -/
def is_peak (p : TouParams) (t : Nat) : Bool :=
  p.peak_start ≤ hourOf t && hourOf t < p.peak_end && !(5 ≤ weekdayOf t)

/-- Whether array position `j` of the batch is a peak interval
(membership of `j` in `peak_indices` / `peak_set`). -/
def peakAt (p : TouParams) (tsl : List Nat) (j : Nat) : Bool :=
  j < tsl.length && is_peak p (tsl.getD j 0)

/-- One step of a linear congruential generator, standing in for the state
advance of `np.random.default_rng(seed)`; only its determinism in the seed
matters to the claims. -/
def lcg (s : Nat) : Nat := (1103515245 * s + 12345) % 2147483648

/-- Modelled from the spec: `rng.shuffle(possible_starts)` where
`rng = np.random.default_rng(random_seed)` — a seeded deterministic
pseudorandom permutation (same seed, same list ⇒ same output).  NumPy's exact
bit stream is external library code; any concrete deterministic
Fisher-Yates-style extraction is a faithful model of the contract. -/
def shuffleGo : Nat → Nat → List Nat → List Nat
  | _, _, [] => []
  | 0, _, l => l
  | fuel + 1, s, l =>
      let i := s % l.length
      l.getD i 0 :: shuffleGo fuel (lcg s) (l.eraseIdx i)

/-- Seeded shuffle of a list (see `shuffleGo`). -/
def npShuffle (seed : Nat) (l : List Nat) : List Nat :=
  shuffleGo l.length (lcg seed) l

/-- `any(i in used for i in block)` where `block = range(s, s + n)` and `used`
is the union of the already-accepted blocks (`acc` holds their start
positions): does the candidate block starting at `s` overlap an accepted
block? -/
def blockOverlapsAcc (n s : Nat) (acc : List Nat) : Bool :=
  (List.range n).any (fun k => acc.any (fun a => a ≤ s + k && s + k < a + n))

/-- The `for s in possible_starts` loop of `price_tou_simple`: walk the
shuffled candidate starts, breaking as soon as `placed >= num_trials`,
rejecting a candidate whose block overlaps an accepted block and otherwise
accepting it.  `acc` is the list of accepted starts; the loop variable
`placed` always equals `acc.length`. -/
def greedyGo (n numTrials : Nat) : List Nat → List Nat → List Nat
  | [], acc => acc
  | s :: rest, acc =>
      if numTrials ≤ acc.length then acc
      else if blockOverlapsAcc n s acc then greedyGo n numTrials rest acc
      else greedyGo n numTrials rest (acc ++ [s])

/-- Conservation-block selection: `num_trials = min(30, len(possible_starts))`
and the greedy walk over the (already shuffled) candidate list. -/
def select_blocks (n : Nat) (cands : List Nat) : List Nat :=
  greedyGo n (min 30 cands.length) cands []

/-- `prices[s : s + n] = conservation_rate` for one accepted block. -/
def writeBlock (n : Nat) (r : ℚ) (ps : List ℚ) (s : Nat) : List ℚ :=
  List.zipWith (fun i q => if s ≤ i ∧ i < s + n then r else q)
    (List.range ps.length) ps

/-- `price_tou_simple`: base peak/off-peak prices, then conservation blocks.
`n_intervals = int(np.round(conservation_hours * 4))` is exact for natural
`conservation_hours`.  `possible_starts` collects, in ascending order, the
peak positions `idx` with `idx <= len(prices) - n_intervals` (over Python
ints, i.e. `idx + n ≤ length`) whose whole block lies in `peak_set`.  The
accepted blocks are pairwise disjoint, so writing them in any order yields
the same array. -/
def price_tou_simple (tsl : List Nat) (p : TouParams) : List ℚ :=
  let base := tsl.map (fun t => if is_peak p t then p.peak_rate else p.offpeak_rate)
  let n := p.conservation_hours * 4
  let peakIdx := (List.range tsl.length).filter (fun i => peakAt p tsl i)
  if peakIdx.length > 0 ∧ n > 0 then
    let possible := peakIdx.filter
      (fun i => i + n ≤ tsl.length && (List.range n).all (fun k => peakAt p tsl (i + k)))
    if possible ≠ [] then
      let shuffled := npShuffle p.random_seed possible
      (select_blocks n shuffled).foldl (writeBlock n p.conservation_rate) base
    else base
  else base

/-! ## Flat-policy claims -/

/-- Noon on 2018-04-30: a timestamp whose date lies inside the closed window
[Jan 1, Apr 30]. -/
def tApr30Noon : Nat := day20180430 * 1440 + 720

/-- C2 counterexample: 2018-04-30 12:00 lies (by date) inside the closed
window [Jan 1, Apr 30], yet `price_flat` assigns it 0, not 0.12673: the code's
mask is `timestamps < pd.Timestamp("2018-04-30")`, i.e. strictly before the
end date's midnight, so the whole of Apr 30 falls outside every window. -/
theorem c2_counterexample :
    day20180101 ≤ dayOf tApr30Noon ∧ dayOf tApr30Noon ≤ day20180430 ∧
      price_flat [tApr30Noon] = [0] ∧ (0 : ℚ) ≠ rateJanApr := by
  refine ⟨by decide, by decide, by decide, by decide⟩

/-- C2 (amended): every record's price is determined solely by which half-open
window `[start date's midnight, end date's midnight)` contains its timestamp —
`[Jan 1, Apr 30)` at 0.12673, `[May 1, Oct 31)` at 0.10870,
`[Nov 1, Dec 31)` at 0.13718 — and any timestamp outside all three windows
(including every interval on Apr 30, Oct 31 and Dec 31 themselves) gets 0;
in particular every timestamp on 2018-03-01 gets 0.12673, on 2018-07-04 gets
0.10870 and on 2018-12-25 gets 0.13718. -/
theorem c2_flat_seasonal_windows (tsl : List Nat) (m : Nat) (hm : m < 1440) :
    price_flat tsl = tsl.map flatWindowPrice ∧
      flatWindowPrice ((day20180101 + 59) * 1440 + m) = rateJanApr ∧
      flatWindowPrice ((day20180101 + 184) * 1440 + m) = rateMayOct ∧
      flatWindowPrice ((day20180101 + 358) * 1440 + m) = rateNovDec := by
  refine ⟨price_flat_eq_map tsl, ?_, ?_, ?_⟩ <;>
    · simp only [flatWindowPrice, day20180101, day20180430, day20180501, day20181031,
        day20181101, day20181231]
      split_ifs <;> first | rfl | omega

theorem c2_flat_seasonal_windows_witness :
    (720 < 1440) ∧
      (price_flat [tApr30Noon] = [tApr30Noon].map flatWindowPrice ∧
        flatWindowPrice ((day20180101 + 59) * 1440 + 720) = rateJanApr ∧
        flatWindowPrice ((day20180101 + 184) * 1440 + 720) = rateMayOct ∧
        flatWindowPrice ((day20180101 + 358) * 1440 + 720) = rateNovDec) :=
  ⟨by decide, c2_flat_seasonal_windows [tApr30Noon] 720 (by decide)⟩

/-! ## TOU claims -/

/-- C4: identical seed + identical timestamp sequence + identical parameters
give bit-identical price sequences across independent runs — in the
embedding the seeded generator is a pure function of the seed, so two
evaluations of `price_tou_simple` at equal arguments are equal. -/
theorem c4_tou_determinism (seed : Nat) (tsl tsl2 : List Nat) (p p2 : TouParams)
    (hs : p.random_seed = seed ∧ p2.random_seed = seed)
    (hts : tsl = tsl2) (hp : p = p2) :
    price_tou_simple tsl p = price_tou_simple tsl2 p2 := by
  subst hts; subst hp; rfl

theorem c4_tou_determinism_witness :
    (defaultTou.random_seed = 100 ∧ defaultTou.random_seed = 100) ∧
      price_tou_simple [25246560] defaultTou = price_tou_simple [25246560] defaultTou :=
  ⟨⟨rfl, rfl⟩, c4_tou_determinism 100 [25246560] [25246560] defaultTou defaultTou
    ⟨rfl, rfl⟩ rfl rfl⟩

/-- C3 failing input: 32 quarter-hour peak intervals on Monday 2018-01-01
(08:00–15:45), one off-peak interval (Mon 21:00), then 32 peak intervals on
Tuesday 2018-01-02 (08:00–15:45).  The only candidate block starts are
positions 0 and 33, whose blocks are disjoint, so the greedy walk accepts
both whatever the shuffle order. -/
def tslC3 : List Nat :=
  ((List.range 32).map (fun k => day20180101 * 1440 + 480 + 15 * k)) ++
    [day20180101 * 1440 + 1260] ++
    ((List.range 32).map (fun k => (day20180101 + 1) * 1440 + 480 + 15 * k))

/-- Number of intervals priced at rate `r`. -/
def countRate (ps : List ℚ) (r : ℚ) : Nat := (ps.filter (fun q => q = r)).length

/-- C3: with the default parameters (target total
`conservation_hours * 4 = 32` intervals), `price_tou_simple` on `tslC3`
prices 64 intervals at the conservation rate — two full 32-interval blocks —
so the total is not bounded by the requested target; the loop places up to
`min(30, #candidates)` blocks of 32 intervals each instead of 32 intervals
in total. -/
theorem c3_conservation_total_exceeds_target :
    countRate (price_tou_simple tslC3 defaultTou) defaultTou.conservation_rate = 64 ∧
      ¬(countRate (price_tou_simple tslC3 defaultTou) defaultTou.conservation_rate
          ≤ defaultTou.conservation_hours * 4) := by
  refine ⟨by decide, by decide⟩

/-! ## The greedy walk's stop rule (claim C6) -/

/-- The walk only ever appends to the accepted list. -/
theorem greedyGo_extends (n nt : Nat) :
    ∀ (l acc : List Nat), ∃ t, greedyGo n nt l acc = acc ++ t := by
  intro l
  induction l with
  | nil => exact fun acc => ⟨[], by simp [greedyGo]⟩
  | cons s rest ih =>
      intro acc
      simp only [greedyGo]
      by_cases hb : nt ≤ acc.length
      · exact ⟨[], by simp [hb]⟩
      · by_cases hov : blockOverlapsAcc n s acc
        · obtain ⟨t, ht⟩ := ih acc
          exact ⟨t, by simp [hb, hov, ht]⟩
        · obtain ⟨t, ht⟩ := ih (acc ++ [s])
          exact ⟨[s] ++ t, by simp [hb, hov, ht]⟩

/-- The accepted list never grows beyond `num_trials`. -/
theorem greedyGo_length_le (n nt : Nat) :
    ∀ (l acc : List Nat), acc.length ≤ nt → (greedyGo n nt l acc).length ≤ nt := by
  intro l
  induction l with
  | nil => intro acc h; simpa [greedyGo] using h
  | cons s rest ih =>
      intro acc h
      simp only [greedyGo]
      by_cases hb : nt ≤ acc.length
      · simpa [hb] using h
      · by_cases hov : blockOverlapsAcc n s acc
        · simpa [hb, hov] using ih acc h
        · have : (acc ++ [s]).length ≤ nt := by
            simp only [List.length_append, List.length_singleton]
            omega
          simpa [hb, hov] using ih (acc ++ [s]) this

/-- The accepted list grows by at most the number of consumed candidates. -/
theorem greedyGo_length_le_consumed (n nt : Nat) :
    ∀ (l acc : List Nat), (greedyGo n nt l acc).length ≤ acc.length + l.length := by
  intro l
  induction l with
  | nil => intro acc; simp [greedyGo]
  | cons s rest ih =>
      intro acc
      simp only [greedyGo]
      by_cases hb : nt ≤ acc.length
      · simp [hb]
      · have h1 := ih acc
        have h2 := ih (acc ++ [s])
        simp only [List.length_append, List.length_cons, List.length_nil] at h1 h2
        by_cases hov : blockOverlapsAcc n s acc <;>
          simp only [hb, hov, if_true, if_false, ite_true, ite_false,
            Bool.false_eq_true, List.length_cons] <;> omega

/-- Every accepted start was already accepted or is drawn from the
candidate list. -/
theorem greedyGo_mem_sound (n nt : Nat) :
    ∀ (l acc : List Nat), ∀ c ∈ greedyGo n nt l acc, c ∈ acc ∨ c ∈ l := by
  intro l
  induction l with
  | nil => intro acc c hc; simp only [greedyGo] at hc; exact Or.inl hc
  | cons s rest ih =>
      intro acc c hc
      simp only [greedyGo] at hc
      by_cases hb : nt ≤ acc.length
      · rw [if_pos hb] at hc
        exact Or.inl hc
      · rw [if_neg hb] at hc
        by_cases hov : blockOverlapsAcc n s acc
        · simp only [hov, ite_true] at hc
          rcases ih acc c hc with h | h
          · exact Or.inl h
          · exact Or.inr (List.mem_cons_of_mem s h)
        · simp only [hov, Bool.false_eq_true, ite_false] at hc
          rcases ih (acc ++ [s]) c hc with h | h
          · rcases List.mem_append.mp h with h | h
            · exact Or.inl h
            · exact Or.inr (List.mem_cons.mpr (Or.inl (List.mem_singleton.mp h)))
          · exact Or.inr (List.mem_cons_of_mem s h)

/-- Overlap against an accepted list persists when the list is extended. -/
theorem blockOverlapsAcc_append (n c : Nat) (acc t : List Nat)
    (h : blockOverlapsAcc n c acc = true) :
    blockOverlapsAcc n c (acc ++ t) = true := by
  simp only [blockOverlapsAcc, List.any_eq_true] at *
  obtain ⟨k, hk, a, ha, hcond⟩ := h
  exact ⟨k, hk, a, List.mem_append_left t ha, hcond⟩

/-- If the walk returned with fewer acceptances than `num_trials`, it
considered the whole candidate list: every candidate was either accepted or
overlapped an accepted block. -/
theorem greedyGo_maximal (n nt : Nat) :
    ∀ (l acc : List Nat), (greedyGo n nt l acc).length < nt →
      ∀ c ∈ l, c ∈ greedyGo n nt l acc ∨
        blockOverlapsAcc n c (greedyGo n nt l acc) = true := by
  intro l
  induction l with
  | nil => intro acc _ c hc; cases hc
  | cons s rest ih =>
      intro acc hlen c hc
      simp only [greedyGo] at hlen ⊢
      by_cases hb : nt ≤ acc.length
      · rw [if_pos hb] at hlen
        omega
      · rw [if_neg hb] at hlen ⊢
        by_cases hov : blockOverlapsAcc n s acc
        · simp only [hov, ite_true] at hlen ⊢
          rcases List.mem_cons.mp hc with hcs | hcr
          · subst hcs
            obtain ⟨t, ht⟩ := greedyGo_extends n nt rest acc
            rw [ht]
            exact Or.inr (blockOverlapsAcc_append n c acc t hov)
          · exact ih acc hlen c hcr
        · simp only [hov, Bool.false_eq_true, ite_false] at hlen ⊢
          rcases List.mem_cons.mp hc with hcs | hcr
          · subst hcs
            obtain ⟨t, ht⟩ := greedyGo_extends n nt rest (acc ++ [c])
            rw [ht]
            left
            simp
          · exact ih (acc ++ [s]) hlen c hcr

/-- If every candidate was accepted (the result is as long as it can be),
then every candidate is in the result. -/
theorem greedyGo_all_accepted (n nt : Nat) :
    ∀ (l acc : List Nat), (greedyGo n nt l acc).length = acc.length + l.length →
      ∀ c ∈ l, c ∈ greedyGo n nt l acc := by
  intro l
  induction l with
  | nil => intro acc _ c hc; cases hc
  | cons s rest ih =>
      intro acc hlen c hc
      simp only [greedyGo] at hlen ⊢
      by_cases hb : nt ≤ acc.length
      · rw [if_pos hb] at hlen
        simp only [List.length_cons] at hlen
        omega
      · rw [if_neg hb] at hlen ⊢
        by_cases hov : blockOverlapsAcc n s acc
        · simp only [hov, ite_true] at hlen ⊢
          have := greedyGo_length_le_consumed n nt rest acc
          simp only [List.length_cons] at hlen
          omega
        · simp only [hov, Bool.false_eq_true, ite_false] at hlen ⊢
          rcases List.mem_cons.mp hc with hcs | hcr
          · subst hcs
            obtain ⟨t, ht⟩ := greedyGo_extends n nt rest (acc ++ [c])
            rw [ht]
            simp
          · apply ih (acc ++ [s])
            · simp only [List.length_append, List.length_cons,
                List.length_nil] at hlen ⊢
              omega
            · exact hcr

/-- The greedy walk as the claim words it: accept over the first 30
considered trial positions (accepted or rejected), i.e. stop as soon as 30
candidates have been looked at or the list is exhausted.  Written to the
claim's words for comparison against the code's `select_blocks`. -/
def selectClaimStop (n : Nat) (cands : List Nat) : List Nat :=
  greedyGo n (cands.take 30).length (cands.take 30) []

/-- C6 counterexample: on the candidate list `[0, 1, …, 29, 100]` with
32-interval blocks, the code's walk accepts the block at 0, rejects
candidates 1–29 as overlapping, and — having considered 30 trial positions
with only one acceptance — keeps walking and also accepts 100; stopping
after 30 considered trials, as the claim states, would have returned `[0]`
alone. -/
theorem c6_counterexample :
    select_blocks 32 (List.range 30 ++ [100]) = [0, 100] ∧
      selectClaimStop 32 (List.range 30 ++ [100]) = [0] ∧
      select_blocks 32 (List.range 30 ++ [100]) ≠
        selectClaimStop 32 (List.range 30 ++ [100]) := by
  refine ⟨by decide, by decide, by decide⟩

/-- C6 (amended): the greedy walk stops as soon as 30 candidates have been
accepted or the candidate list is exhausted; considered-but-rejected trial
positions do not count toward the bound.  Formally: at most 30 blocks are
accepted, each accepted start is a candidate, and whenever fewer than 30
were accepted the whole list was considered — every candidate was either
accepted or overlaps an accepted block. -/
theorem c6_greedy_stop_rule (n : Nat) (cands : List Nat) :
    (select_blocks n cands).length ≤ 30 ∧
      (∀ c ∈ select_blocks n cands, c ∈ cands) ∧
      ((select_blocks n cands).length < 30 →
        ∀ c ∈ cands, c ∈ select_blocks n cands ∨
          blockOverlapsAcc n c (select_blocks n cands) = true) := by
  refine ⟨?_, ?_, ?_⟩
  · have := greedyGo_length_le n (min 30 cands.length) cands [] (by simp)
    simp only [select_blocks]
    omega
  · intro c hc
    rcases greedyGo_mem_sound n (min 30 cands.length) cands [] c hc with h | h
    · cases h
    · exact h
  · intro hlt c hc
    have hmax := greedyGo_maximal n (min 30 cands.length) cands []
    rcases Nat.lt_or_ge (select_blocks n cands).length (min 30 cands.length) with hl | hl
    · exact hmax hl c hc
    · -- the walk returned at least min(30, len) acceptances while fewer than
      -- 30: the bound is the list length and every candidate was accepted
      have hcons := greedyGo_length_le_consumed n (min 30 cands.length) cands []
      have heq : (select_blocks n cands).length =
          ([] : List Nat).length + cands.length := by
        simp only [select_blocks] at hl hlt ⊢
        simp only [List.length_nil] at *
        omega
      exact Or.inl (greedyGo_all_accepted n (min 30 cands.length) cands [] heq c hc)

theorem c6_greedy_stop_rule_witness :
    ((select_blocks 32 [0, 1, 100]).length < 30 ∧ 1 ∈ [0, 1, 100]) ∧
      (1 ∈ select_blocks 32 [0, 1, 100] ∨
        blockOverlapsAcc 32 1 (select_blocks 32 [0, 1, 100]) = true) :=
  ⟨⟨by decide, by decide⟩,
    (c6_greedy_stop_rule 32 [0, 1, 100]).2.2 (by decide) 1 (by decide)⟩

/-! ## Reference price cache (`PriceDataCache`) and dynamic pricing -/

/-- The cache's mutable state: the `_rtp_data` slot (`none` is Python's
`None`); a price curve is the list of (timestamp, $/kWh) rows of the
resampled RTP table. -/
structure PriceDataCache where
  rtp_data : Option (List (Nat × ℚ))
deriving DecidableEq

/-- The state of a freshly constructed cache (`self._rtp_data = None`). -/
def emptyCache : PriceDataCache := ⟨none⟩

/-- `get_rtp_data`: if the slot is empty, perform the underlying
read-and-resample of the named source and store it; otherwise return the
stored curve.  `loadRtp` models
`pd.read_csv(rtp_csv).set_index("timestamp").resample("15min").ffill()`.
Returns (curve, new cache state, number of underlying loads performed). -/
def get_rtp_data (st : PriceDataCache) (rtp_csv : String)
    (loadRtp : String → List (Nat × ℚ)) :
    List (Nat × ℚ) × PriceDataCache × Nat :=
  match st.rtp_data with
  | some c => (c, st, 0)
  | none => (loadRtp rtp_csv, ⟨some (loadRtp rtp_csv)⟩, 1)

/-- `clear`: reset the slot to `None`. -/
def PriceDataCache.clear (_ : PriceDataCache) : PriceDataCache := ⟨none⟩

/-- C8: from an empty cache, two consecutive `get` calls for the same source
with no intervening `clear()` perform exactly one underlying
read-and-resample in total; the second call returns exactly the curve the
first call stored; and after a `clear()` the next `get` performs exactly one
more load. -/
theorem c8_cache_idempotence (src : String) (loadRtp : String → List (Nat × ℚ)) :
    (get_rtp_data emptyCache src loadRtp).2.2 = 1 ∧
      (get_rtp_data (get_rtp_data emptyCache src loadRtp).2.1 src loadRtp).2.2 = 0 ∧
      (get_rtp_data emptyCache src loadRtp).2.1.rtp_data =
        some (get_rtp_data emptyCache src loadRtp).1 ∧
      (get_rtp_data (get_rtp_data emptyCache src loadRtp).2.1 src loadRtp).1 =
        (get_rtp_data emptyCache src loadRtp).1 ∧
      (get_rtp_data
          ((get_rtp_data (get_rtp_data emptyCache src loadRtp).2.1 src
            loadRtp).2.1.clear) src loadRtp).2.2 = 1 :=
  ⟨rfl, rfl, rfl, rfl, rfl⟩

/-- C10: the cache is keyed on nothing — once any `get` has populated it,
a subsequent `get` for ANY source path returns the stored curve of the first
source, performs no load of the newly named source, and leaves the state
unchanged. -/
theorem c10_cache_ignores_source (src1 src2 : String)
    (loadRtp : String → List (Nat × ℚ)) :
    get_rtp_data (get_rtp_data emptyCache src1 loadRtp).2.1 src2 loadRtp =
      (loadRtp src1, (get_rtp_data emptyCache src1 loadRtp).2.1, 0) :=
  rfl

/-- Forward-fill lookup: the most recent curve price at or before `t`
(`rtp_df.reindex(ts, method="ffill")`), for a curve sorted by timestamp.
pandas yields NaN before the curve's first entry; the embedding returns 0
there — no claim depends on that value. -/
def ffillAt (curve : List (Nat × ℚ)) (t : Nat) : ℚ :=
  (((curve.filter (fun e => e.1 ≤ t)).getLast?).map (fun e => e.2)).getD 0

/-- `price_dynamic_stub` with the cache's resampled curve passed explicitly:
align the curve onto the record timestamps by forward fill. -/
def price_dynamic_stub (tsl : List Nat) (curve : List (Nat × ℚ)) : List ℚ :=
  tsl.map (ffillAt curve)

/-! ## Bill aggregation (`apply_all_tariffs`) -/

/-- One interval record of the batch handed to the tariff functions:
`bldg_id`, `upgrade_id`, `timestamp` and the precomputed `kwh_total`. -/
structure IntervalRec where
  bldg_id : Nat
  upgrade_id : Nat
  timestamp : Nat
  kwh_total : ℚ
deriving DecidableEq

/-- One output row of `apply_all_tariffs`. -/
structure Bill where
  bldg_id : Nat
  annual_kwh : ℚ
  annual_cost_flat : ℚ
  annual_cost_tou : ℚ
  annual_cost_dynamic : ℚ
deriving DecidableEq

/-- `groupby('bldg_id').sum()` of one numeric column: `xs` positionally
keyed by `ids`, summed over the rows whose key is `b`. -/
def groupSum (ids : List Nat) (xs : List ℚ) (b : Nat) : ℚ :=
  (((ids.zip xs).filter (fun p => p.1 == b)).map (fun p => p.2)).sum

/-- The group keys of a `groupby`: pandas emits one row per distinct key,
sorted ascending. -/
def groupKeys (ids : List Nat) : List Nat :=
  List.insertionSort (· ≤ ·) ids.dedup

/-- `apply_all_tariffs`: compute all three price series over the whole
batch, the per-interval costs `kwh_total * price`, and one `groupby` over
`bldg_id` summing every column. -/
def apply_all_tariffs (rs : List IntervalRec) (curve : List (Nat × ℚ)) :
    List Bill :=
  let bldg_ids := rs.map (fun r => r.bldg_id)
  let kwh_total := rs.map (fun r => r.kwh_total)
  let prices_flat := price_flat (rs.map (fun r => r.timestamp))
  let prices_tou := price_tou_simple (rs.map (fun r => r.timestamp)) defaultTou
  let prices_dynamic := price_dynamic_stub (rs.map (fun r => r.timestamp)) curve
  let cost_flat := List.zipWith (fun k p => k * p) kwh_total prices_flat
  let cost_tou := List.zipWith (fun k p => k * p) kwh_total prices_tou
  let cost_dynamic := List.zipWith (fun k p => k * p) kwh_total prices_dynamic
  (groupKeys bldg_ids).map (fun b =>
    { bldg_id := b,
      annual_kwh := groupSum bldg_ids kwh_total b,
      annual_cost_flat := groupSum bldg_ids cost_flat b,
      annual_cost_tou := groupSum bldg_ids cost_tou b,
      annual_cost_dynamic := groupSum bldg_ids cost_dynamic b })

/-- Look up the output row of a building. -/
def findBill (bs : List Bill) (b : Nat) : Option Bill :=
  bs.find? (fun r => r.bldg_id == b)

/-- Sum of `kwh_total` over one building's records. -/
def buildingConsumption (rs : List IntervalRec) (b : Nat) : ℚ :=
  ((rs.filter (fun r => r.bldg_id == b)).map (fun r => r.kwh_total)).sum

/-- Sum of `kwh_total * price` over one building's records, for a price
series positionally aligned with the whole batch. -/
def buildingCost (rs : List IntervalRec) (ps : List ℚ) (b : Nat) : ℚ :=
  (((rs.zip ps).filter (fun q => q.1.bldg_id == b)).map
    (fun q => q.1.kwh_total * q.2)).sum

theorem mem_groupKeys (ids : List Nat) (b : Nat) : b ∈ groupKeys ids ↔ b ∈ ids := by
  unfold groupKeys
  rw [(List.perm_insertionSort (· ≤ ·) ids.dedup).mem_iff]
  exact List.mem_dedup

theorem nodup_groupKeys (ids : List Nat) : (groupKeys ids).Nodup :=
  ((List.perm_insertionSort (· ≤ ·) ids.dedup).nodup_iff).mpr (List.nodup_dedup ids)

/-- `find?` over rows built from distinct keys finds exactly the key's row. -/
theorem find?_map_keys (keys : List Nat) (f : Nat → Bill)
    (hf : ∀ k, (f k).bldg_id = k) (hnd : keys.Nodup) (b : Nat) (hb : b ∈ keys) :
    (keys.map f).find? (fun r => r.bldg_id == b) = some (f b) := by
  induction keys with
  | nil => cases hb
  | cons k ks ih =>
      rcases List.mem_cons.mp hb with rfl | hbk
      · have : ((f b).bldg_id == b) = true := by simp [hf]
        simp [List.find?_cons_of_pos, this]
      · have hkb : k ≠ b := by
          rintro rfl
          exact (List.nodup_cons.mp hnd).1 hbk
        have hpred : ((f k).bldg_id == b) = false := by simp [hf, hkb]
        rw [List.map_cons, List.find?_cons_of_neg _ (by simp [hpred]),
          ih (List.nodup_cons.mp hnd).2 hbk]

/-- Row-wise `groupby` sum of a per-record column equals the sum of that
column over the building's records. -/
theorem groupSum_map (rs : List IntervalRec) (g : IntervalRec → ℚ) (b : Nat) :
    groupSum (rs.map (fun r => r.bldg_id)) (rs.map g) b =
      ((rs.filter (fun r => r.bldg_id == b)).map g).sum := by
  induction rs with
  | nil => rfl
  | cons r rest ih =>
      simp only [groupSum, List.map_cons, List.zip_cons_cons, List.filter_cons]
      by_cases h : r.bldg_id == b
      · simp only [groupSum] at ih
        simp [h, ih]
      · simp only [groupSum] at ih
        simp [h, ih]

/-- Row-wise `groupby` sum of `kwh_total * price` equals `buildingCost`. -/
theorem groupSum_zipWith (rs : List IntervalRec) (ps : List ℚ) (b : Nat) :
    groupSum (rs.map (fun r => r.bldg_id))
        (List.zipWith (fun k p => k * p) (rs.map (fun r => r.kwh_total)) ps) b =
      buildingCost rs ps b := by
  induction rs generalizing ps with
  | nil => rfl
  | cons r rest ih =>
      cases ps with
      | nil => rfl
      | cons p ps =>
          simp only [groupSum, buildingCost, List.map_cons, List.zipWith_cons_cons,
            List.zip_cons_cons, List.filter_cons]
          by_cases h : r.bldg_id == b
          · have := ih ps
            simp only [groupSum, buildingCost] at this
            simp [h, this]
          · have := ih ps
            simp only [groupSum, buildingCost] at this
            simp [h, this]

/-- C1: for every batch and every building present in it, the output row of
`apply_all_tariffs` for that building has `annual_kwh` equal to the sum of
`kwh_total` over the building's records, and each `annual_cost_<policy>`
equal to the sum over the building's records of `kwh_total` times the
per-interval price the policy computed over the whole batch. -/
theorem c1_aggregator_sums (rs : List IntervalRec) (curve : List (Nat × ℚ))
    (b : Nat) (hb : b ∈ rs.map (fun r => r.bldg_id)) :
    findBill (apply_all_tariffs rs curve) b = some
      { bldg_id := b,
        annual_kwh := buildingConsumption rs b,
        annual_cost_flat :=
          buildingCost rs (price_flat (rs.map (fun r => r.timestamp))) b,
        annual_cost_tou :=
          buildingCost rs
            (price_tou_simple (rs.map (fun r => r.timestamp)) defaultTou) b,
        annual_cost_dynamic :=
          buildingCost rs
            (price_dynamic_stub (rs.map (fun r => r.timestamp)) curve) b } := by
  have e1 := groupSum_map rs (fun r => r.kwh_total) b
  have e2 := groupSum_zipWith rs (price_flat (rs.map (fun r => r.timestamp))) b
  have e3 := groupSum_zipWith rs
    (price_tou_simple (rs.map (fun r => r.timestamp)) defaultTou) b
  have e4 := groupSum_zipWith rs
    (price_dynamic_stub (rs.map (fun r => r.timestamp)) curve) b
  simp only [findBill, apply_all_tariffs]
  rw [find?_map_keys _ _ (fun k => rfl) (nodup_groupKeys _) b
    ((mem_groupKeys _ _).mpr hb)]
  simp only [buildingConsumption, buildingCost] at e1 e2 e3 e4 ⊢
  rw [← e1, ← e2, ← e3, ← e4]

/-- A small batch: one building (id 7) under two upgrade ids. -/
def c7BatchA : List IntervalRec :=
  [{ bldg_id := 7, upgrade_id := 0, timestamp := day20180101 * 1440 + 480,
     kwh_total := 1 },
   { bldg_id := 7, upgrade_id := 1, timestamp := day20180101 * 1440 + 495,
     kwh_total := 2 }]

/-- The same batch with the upgrade ids relabelled. -/
def c7BatchB : List IntervalRec :=
  [{ bldg_id := 7, upgrade_id := 5, timestamp := day20180101 * 1440 + 480,
     kwh_total := 1 },
   { bldg_id := 7, upgrade_id := 9, timestamp := day20180101 * 1440 + 495,
     kwh_total := 2 }]

theorem c1_aggregator_sums_witness :
    (7 ∈ c7BatchA.map (fun r => r.bldg_id)) ∧
      findBill (apply_all_tariffs c7BatchA []) 7 = some
        { bldg_id := 7,
          annual_kwh := buildingConsumption c7BatchA 7,
          annual_cost_flat :=
            buildingCost c7BatchA
              (price_flat (c7BatchA.map (fun r => r.timestamp))) 7,
          annual_cost_tou :=
            buildingCost c7BatchA
              (price_tou_simple (c7BatchA.map (fun r => r.timestamp)) defaultTou) 7,
          annual_cost_dynamic :=
            buildingCost c7BatchA
              (price_dynamic_stub (c7BatchA.map (fun r => r.timestamp)) []) 7 } :=
  ⟨by decide, c1_aggregator_sums c7BatchA [] 7 (by decide)⟩

/-- The record fields the aggregator actually reads: everything except the
upgrade id. -/
def stripUpgrade (r : IntervalRec) : Nat × Nat × ℚ :=
  (r.bldg_id, r.timestamp, r.kwh_total)

/-- The output rows carry exactly the group keys. -/
theorem apply_all_tariffs_ids (rs : List IntervalRec) (curve : List (Nat × ℚ)) :
    (apply_all_tariffs rs curve).map (fun r => r.bldg_id) =
      groupKeys (rs.map (fun r => r.bldg_id)) := by
  simp only [apply_all_tariffs, List.map_map]
  exact List.map_id _

/-- C7: the aggregator groups by building identifier only — two batches
that agree on everything but the upgrade ids produce identical output
(records of one building under different upgrades are summed together) —
and its output has exactly one row per distinct building identifier present
in the batch (the output ids are duplicate-free and are exactly the input
ids). -/
theorem c7_groups_by_building_only (rs rs2 : List IntervalRec)
    (curve : List (Nat × ℚ))
    (hstrip : rs.map stripUpgrade = rs2.map stripUpgrade) :
    apply_all_tariffs rs curve = apply_all_tariffs rs2 curve ∧
      ((apply_all_tariffs rs curve).map (fun r => r.bldg_id)).Nodup ∧
      ∀ b, (b ∈ (apply_all_tariffs rs curve).map (fun r => r.bldg_id) ↔
        b ∈ rs.map (fun r => r.bldg_id)) := by
  have hb : rs.map (fun r => r.bldg_id) = rs2.map (fun r => r.bldg_id) := by
    have := congrArg (List.map (fun p : Nat × Nat × ℚ => p.1)) hstrip
    simpa [List.map_map, stripUpgrade, Function.comp] using this
  have ht : rs.map (fun r => r.timestamp) = rs2.map (fun r => r.timestamp) := by
    have := congrArg (List.map (fun p : Nat × Nat × ℚ => p.2.1)) hstrip
    simpa [List.map_map, stripUpgrade, Function.comp] using this
  have hk : rs.map (fun r => r.kwh_total) = rs2.map (fun r => r.kwh_total) := by
    have := congrArg (List.map (fun p : Nat × Nat × ℚ => p.2.2)) hstrip
    simpa [List.map_map, stripUpgrade, Function.comp] using this
  refine ⟨?_, ?_, ?_⟩
  · simp only [apply_all_tariffs]
    rw [hb, ht, hk]
  · rw [apply_all_tariffs_ids]
    exact nodup_groupKeys _
  · intro b
    rw [apply_all_tariffs_ids]
    exact mem_groupKeys _ b

theorem c7_groups_by_building_only_witness :
    (c7BatchA.map stripUpgrade = c7BatchB.map stripUpgrade) ∧
      (apply_all_tariffs c7BatchA [] = apply_all_tariffs c7BatchB [] ∧
        ((apply_all_tariffs c7BatchA []).map (fun r => r.bldg_id)).Nodup ∧
        ∀ b, (b ∈ (apply_all_tariffs c7BatchA []).map (fun r => r.bldg_id) ↔
          b ∈ c7BatchA.map (fun r => r.bldg_id))) :=
  ⟨rfl, c7_groups_by_building_only c7BatchA c7BatchB [] rfl⟩

/-! ## Chunked driver (`compute_bills_chunked`, `load_timeseries_for_buildings`) -/

/-- One row of the building index (`build_timeseries_index`); the
`file_path` column is abstracted into the file-reading function below. -/
structure IndexEntry where
  building_id : Nat
  upgrade_id : Nat
deriving DecidableEq

/-- One row of a building's parquet file: timestamp and the electricity
end-use columns (`elec_cols`), as a positional list. -/
structure FileRow where
  timestamp : Nat
  uses : List ℚ
deriving DecidableEq

/-- A loaded timeseries row after `load_timeseries_for_buildings` attached
the building/upgrade ids. -/
structure RawRec where
  bldg_id : Nat
  upgrade_id : Nat
  timestamp : Nat
  uses : List ℚ
deriving DecidableEq

/-- `load_timeseries_for_buildings` on one chunk `sub_idx`: read each
entry's parquet file (`readFile` stands for
`pq.read_table(row["file_path"]).to_pandas()`) and attach the entry's ids to
every row (`df["bldg_id"] = bldg_id; df["upgrade_id"] = upgrade_id`),
concatenating the per-entry frames.  An empty selection gives an empty
frame. -/
def load_timeseries_for_buildings (sub_idx : List IndexEntry)
    (readFile : IndexEntry → List FileRow) : List RawRec :=
  (sub_idx.map (fun e => (readFile e).map (fun r =>
    { bldg_id := e.building_id, upgrade_id := e.upgrade_id,
      timestamp := r.timestamp, uses := r.uses }))).flatten

/-- `ts_chunk["kwh_total"] = ts_chunk[elec_cols].sum(axis=1)`. -/
def withKwhTotal (r : RawRec) : IntervalRec :=
  { bldg_id := r.bldg_id, upgrade_id := r.upgrade_id,
    timestamp := r.timestamp, kwh_total := r.uses.sum }

/-- The `for start in range(0, n, chunk_size)` slicing: chunk `i` is
`ts_index.iloc[i*k : i*k+k]`, and there are `⌈n/k⌉` chunks.  (Python's
`range` raises on step 0; the embedding returns no chunks there, and the
claims assume a positive chunk size.) -/
def chunksOf (k : Nat) (l : List IndexEntry) : List (List IndexEntry) :=
  (List.range ((l.length + k - 1) / k)).map (fun i => (l.drop (i * k)).take k)

/-- `compute_bills_chunked`: slice the index, load each chunk's records,
skip a chunk whose frame is empty (`if ts_chunk.empty: continue`), compute
`kwh_total`, apply all tariffs, and concatenate the per-chunk bills (an
empty overall accumulation yields the empty frame).

Note: the Python call site passes `verbose=verbose` to
`load_timeseries_for_buildings`, which accepts no such keyword, so as
written the interpreter raises `TypeError` on every non-empty chunk; the
embedding models the documented intended call (see claim C9). -/
def compute_bills_chunked (ts_index : List IndexEntry)
    (readFile : IndexEntry → List FileRow) (chunk_size : Nat)
    (curve : List (Nat × ℚ)) : List Bill :=
  ((chunksOf chunk_size ts_index).map (fun sub_idx =>
    let ts_chunk := load_timeseries_for_buildings sub_idx readFile
    if ts_chunk = [] then []
    else apply_all_tariffs (ts_chunk.map withKwhTotal) curve)).flatten

/-- Entries of a chunk are entries of the index. -/
theorem mem_of_mem_chunksOf (k : Nat) (l : List IndexEntry)
    (c : List IndexEntry) (hc : c ∈ chunksOf k l) (e : IndexEntry)
    (he : e ∈ c) : e ∈ l := by
  simp only [chunksOf, List.mem_map, List.mem_range] at hc
  obtain ⟨i, _, rfl⟩ := hc
  exact List.mem_of_mem_drop (List.mem_of_mem_take he)

/-- C9: the chunked driver on an empty building index returns the empty
result, and likewise when every index entry's file holds zero records
(every chunk is skipped as empty); no failure value exists — the embedded
driver is a total function. -/
theorem c9_empty_runs (ts_index : List IndexEntry)
    (readFile : IndexEntry → List FileRow) (chunk_size : Nat)
    (curve : List (Nat × ℚ))
    (hempty : ∀ e ∈ ts_index, readFile e = []) :
    compute_bills_chunked ts_index readFile chunk_size curve = [] ∧
      compute_bills_chunked [] readFile chunk_size curve = [] := by
  constructor
  · simp only [compute_bills_chunked, List.flatten_eq_nil_iff, List.mem_map]
    rintro bs ⟨c, hc, rfl⟩
    have hload : load_timeseries_for_buildings c readFile = [] := by
      simp only [load_timeseries_for_buildings, List.flatten_eq_nil_iff, List.mem_map]
      rintro rows ⟨e, he, rfl⟩
      rw [hempty e (mem_of_mem_chunksOf chunk_size ts_index c hc e he)]
      rfl
    simp [hload]
  · have hz : (chunk_size - 1) / chunk_size = 0 := by
      rcases Nat.eq_zero_or_pos chunk_size with h0 | hpos
      · subst h0; rfl
      · exact Nat.div_eq_of_lt (by omega)
    simp [compute_bills_chunked, chunksOf, hz]

theorem c9_empty_runs_witness :
    (∀ e ∈ [IndexEntry.mk 1 0], (fun _ => ([] : List FileRow)) e = []) ∧
      (compute_bills_chunked [IndexEntry.mk 1 0] (fun _ => []) 100 [] = [] ∧
        compute_bills_chunked [] (fun _ => []) 100 [] = []) :=
  ⟨fun _ _ => rfl, c9_empty_runs [IndexEntry.mk 1 0] (fun _ => []) 100 []
    (fun _ _ => rfl)⟩

/-! ## Chunked-equivalence claim (C5) -/

/-- A two-building population: buildings 1 and 2, upgrade 0. -/
def c5Index : List IndexEntry :=
  [{ building_id := 1, upgrade_id := 0 }, { building_id := 2, upgrade_id := 0 }]

/-- Building 1's file: 31 quarter-hour peak intervals on Monday 2018-01-01
(08:00–15:30), 1 kWh each; building 2's file: the single next interval
(15:45), 1 kWh.  Loaded one building at a time no 32-interval conservation
block fits, while the concatenated two-building frame holds exactly one
candidate block covering all 32 rows — conservation placement works on
array positions of the whole chunk. -/
def c5ReadFile (e : IndexEntry) : List FileRow :=
  if e.building_id = 1 then
    (List.range 31).map (fun j =>
      { timestamp := day20180101 * 1440 + 480 + 15 * j, uses := [1] })
  else
    [{ timestamp := day20180101 * 1440 + 480 + 15 * 31, uses := [1] }]

/-- The `annual_cost_tou` entry of one building's output row. -/
def billTou (bs : List Bill) (b : Nat) : ℚ :=
  ((findBill bs b).map (fun r => r.annual_cost_tou)).getD 0

/-- C5 counterexample: the same population processed with chunk size 1 and
chunk size 7 (= all at once here) yields different rows for building 2 —
with chunk size 1 its single interval is priced at the peak rate 0.1211,
all at once it falls inside a conservation block at 0.6137 — so the output
row sets differ between chunkings. -/
theorem c5_counterexample :
    billTou (compute_bills_chunked c5Index c5ReadFile 1 []) 2 =
        (1 + 0) * mkRat 1211 10000 + 0 ∧
      billTou (compute_bills_chunked c5Index c5ReadFile 7 []) 2 =
        (1 + 0) * mkRat 6137 10000 + 0 ∧
      billTou (compute_bills_chunked c5Index c5ReadFile 1 []) 2 ≠
        billTou (compute_bills_chunked c5Index c5ReadFile 7 []) 2 := by
  refine ⟨rfl, rfl, ?_⟩
  intro h
  rw [show billTou (compute_bills_chunked c5Index c5ReadFile 1 []) 2 =
      (1 + 0) * mkRat 1211 10000 + 0 from rfl,
    show billTou (compute_bills_chunked c5Index c5ReadFile 7 []) 2 =
      (1 + 0) * mkRat 6137 10000 + 0 from rfl] at h
  norm_num at h

/-- The chunking-independent projection of an output row: building id,
`annual_kwh`, `annual_cost_flat` and `annual_cost_dynamic`
(`annual_cost_tou` is excluded — see `c5_counterexample`). -/
def projFD (b : Bill) : Nat × ℚ × ℚ × ℚ :=
  (b.bldg_id, b.annual_kwh, b.annual_cost_flat, b.annual_cost_dynamic)

/-- The interval records one index entry contributes to its chunk's frame. -/
def recsOf (readFile : IndexEntry → List FileRow) (e : IndexEntry) :
    List IntervalRec :=
  (readFile e).map (fun r =>
    { bldg_id := e.building_id, upgrade_id := e.upgrade_id,
      timestamp := r.timestamp, kwh_total := r.uses.sum })

/-- The canonical row of one building: sums over its own file alone,
independent of any chunking. -/
def entryRow (readFile : IndexEntry → List FileRow) (curve : List (Nat × ℚ))
    (e : IndexEntry) : Nat × ℚ × ℚ × ℚ :=
  (e.building_id,
    ((readFile e).map (fun r => r.uses.sum)).sum,
    ((readFile e).map (fun r => r.uses.sum * flatWindowPrice r.timestamp)).sum,
    ((readFile e).map (fun r => r.uses.sum * ffillAt curve r.timestamp)).sum)

/-- The `projFD` value components of one building of a batch, as filtered
per-record sums. -/
def perBuildingFD (rs : List IntervalRec) (curve : List (Nat × ℚ)) (b : Nat) :
    ℚ × ℚ × ℚ :=
  (((rs.filter (fun r => r.bldg_id == b)).map (fun r => r.kwh_total)).sum,
   ((rs.filter (fun r => r.bldg_id == b)).map
     (fun r => r.kwh_total * flatWindowPrice r.timestamp)).sum,
   ((rs.filter (fun r => r.bldg_id == b)).map
     (fun r => r.kwh_total * ffillAt curve r.timestamp)).sum)

/-- `groupby` sum of `kwh_total * price` for a price computed pointwise
from the record timestamp. -/
theorem groupSum_zipWith_pointwise (rs : List IntervalRec) (f : Nat → ℚ)
    (b : Nat) :
    groupSum (rs.map (fun r => r.bldg_id))
        (List.zipWith (fun k p => k * p) (rs.map (fun r => r.kwh_total))
          ((rs.map (fun r => r.timestamp)).map f)) b =
      ((rs.filter (fun r => r.bldg_id == b)).map
        (fun r => r.kwh_total * f r.timestamp)).sum := by
  have hfuse : List.zipWith (fun k p => k * p) (rs.map (fun r => r.kwh_total))
      ((rs.map (fun r => r.timestamp)).map f) =
      rs.map (fun r => r.kwh_total * f r.timestamp) := by
    induction rs with
    | nil => rfl
    | cons r rest ih => simp only [List.map_cons, List.zipWith_cons_cons, ih]
  rw [hfuse]
  exact groupSum_map rs (fun r => r.kwh_total * f r.timestamp) b

theorem price_dynamic_stub_eq_map (tsl : List Nat) (curve : List (Nat × ℚ)) :
    price_dynamic_stub tsl curve = tsl.map (ffillAt curve) := rfl

/-- The `projFD` projection of the aggregator's output: one row per group
key, holding the per-building filtered sums. -/
theorem map_projFD_apply_all (rs : List IntervalRec) (curve : List (Nat × ℚ)) :
    (apply_all_tariffs rs curve).map projFD =
      (groupKeys (rs.map (fun r => r.bldg_id))).map
        (fun b => (b, perBuildingFD rs curve b)) := by
  simp only [apply_all_tariffs, List.map_map]
  apply List.map_congr_left
  intro b _
  simp only [Function.comp, projFD, perBuildingFD, Prod.mk.injEq]
  refine ⟨trivial, ?_, ?_, ?_⟩
  · exact groupSum_map rs (fun r => r.kwh_total) b
  · rw [price_flat_eq_map]
    exact groupSum_zipWith_pointwise rs flatWindowPrice b
  · rw [price_dynamic_stub_eq_map]
    exact groupSum_zipWith_pointwise rs (ffillAt curve) b

/-- A loaded chunk, with `kwh_total` attached, is the concatenation of the
entries' record lists. -/
theorem load_eq_flatten_recsOf (c : List IndexEntry)
    (readFile : IndexEntry → List FileRow) :
    (load_timeseries_for_buildings c readFile).map withKwhTotal =
      (c.map (recsOf readFile)).flatten := by
  simp only [load_timeseries_for_buildings, List.map_flatten, List.map_map]
  apply congrArg List.flatten
  apply List.map_congr_left
  intro e _
  simp only [Function.comp, List.map_map]
  rfl

theorem bldg_of_mem_recsOf (readFile : IndexEntry → List FileRow)
    (e : IndexEntry) (a : IntervalRec) (ha : a ∈ recsOf readFile e) :
    a.bldg_id = e.building_id := by
  simp only [recsOf, List.mem_map] at ha
  obtain ⟨r, _, rfl⟩ := ha
  rfl

/-- Which building ids occur in a chunk's frame. -/
theorem mem_chunk_ids (readFile : IndexEntry → List FileRow)
    (c : List IndexEntry) (b : Nat) :
    b ∈ ((c.map (recsOf readFile)).flatten).map (fun r => r.bldg_id) ↔
      ∃ e ∈ c, readFile e ≠ [] ∧ b = e.building_id := by
  simp only [List.mem_map, List.mem_flatten]
  constructor
  · rintro ⟨a, ⟨l, ⟨e, he, rfl⟩, ha⟩, rfl⟩
    refine ⟨e, he, ?_, (bldg_of_mem_recsOf readFile e a ha).symm ▸ rfl⟩
    intro hnil
    rw [recsOf, hnil] at ha
    cases ha
  · rintro ⟨e, he, hne, rfl⟩
    rcases List.exists_mem_of_ne_nil (readFile e) hne with ⟨r, hr⟩
    refine ⟨IntervalRec.mk e.building_id e.upgrade_id r.timestamp r.uses.sum,
      ⟨recsOf readFile e, ⟨e, he, rfl⟩, ?_⟩, rfl⟩
    simp only [recsOf, List.mem_map]
    exact ⟨r, hr, rfl⟩

/-- In a chunk whose entries carry distinct building ids, filtering the
concatenated frame by one entry's id keeps exactly that entry's records. -/
theorem filter_chunk_single (readFile : IndexEntry → List FileRow) :
    ∀ (c : List IndexEntry), (c.map (fun e => e.building_id)).Nodup →
      ∀ e ∈ c, ((c.map (recsOf readFile)).flatten).filter
          (fun r => r.bldg_id == e.building_id) = recsOf readFile e := by
  intro c
  induction c with
  | nil => intro _ e he; cases he
  | cons f c' ih =>
      intro hnd e he
      simp only [List.map_cons] at hnd
      have hnd' := List.nodup_cons.mp hnd
      simp only [List.map_cons, List.flatten_cons, List.filter_append]
      rcases List.mem_cons.mp he with rfl | hec
      · have h1 : (recsOf readFile e).filter
            (fun r => r.bldg_id == e.building_id) = recsOf readFile e := by
          apply List.filter_eq_self.mpr
          intro a ha
          simp [bldg_of_mem_recsOf readFile e a ha]
        have h2 : ((c'.map (recsOf readFile)).flatten).filter
            (fun r => r.bldg_id == e.building_id) = [] := by
          apply List.filter_eq_nil_iff.mpr
          intro a ha
          rcases List.mem_flatten.mp ha with ⟨l, hl, hal⟩
          rcases List.mem_map.mp hl with ⟨g, hg, rfl⟩
          rw [bldg_of_mem_recsOf readFile g a hal]
          simp only [beq_iff_eq]
          intro hgb
          exact hnd'.1 (hgb ▸ List.mem_map_of_mem (fun x => x.building_id) hg)
        rw [h1, h2, List.append_nil]
      · have hfb : f.building_id ≠ e.building_id := by
          intro hfe
          exact hnd'.1 (hfe ▸ List.mem_map_of_mem (fun x => x.building_id) hec)
        have h1 : (recsOf readFile f).filter
            (fun r => r.bldg_id == e.building_id) = [] := by
          apply List.filter_eq_nil_iff.mpr
          intro a ha
          rw [bldg_of_mem_recsOf readFile f a ha]
          simp [hfb]
        rw [h1, List.nil_append]
        exact ih hnd'.2 e hec

/-- For an entry of a distinct-id chunk, the per-building sums over the
chunk's frame collapse to sums over that entry's own file. -/
theorem perBuildingFD_chunk (readFile : IndexEntry → List FileRow)
    (curve : List (Nat × ℚ)) (c : List IndexEntry)
    (hnd : (c.map (fun e => e.building_id)).Nodup) (e : IndexEntry)
    (he : e ∈ c) :
    perBuildingFD ((c.map (recsOf readFile)).flatten) curve e.building_id =
      (entryRow readFile curve e).2 := by
  simp only [perBuildingFD, entryRow, filter_chunk_single readFile c hnd e he,
    recsOf, List.map_map]
  rfl

/-- One chunk's bill rows, projected by `projFD`, are (up to row order) the
canonical rows of the chunk's entries with nonempty files. -/
theorem chunk_rows_perm (readFile : IndexEntry → List FileRow)
    (curve : List (Nat × ℚ)) (c : List IndexEntry)
    (hnd : (c.map (fun e => e.building_id)).Nodup) :
    ((apply_all_tariffs ((c.map (recsOf readFile)).flatten) curve).map
        projFD).Perm
      ((c.filter (fun e => !(readFile e).isEmpty)).map
        (entryRow readFile curve)) := by
  rw [map_projFD_apply_all]
  have hn1 : ((groupKeys (((c.map (recsOf readFile)).flatten).map
      (fun r => r.bldg_id))).map
      (fun b => (b, perBuildingFD ((c.map (recsOf readFile)).flatten) curve
        b))).Nodup :=
    List.Nodup.map (fun a b h => congrArg Prod.fst h) (nodup_groupKeys _)
  have hn2 : ((c.filter (fun e => !(readFile e).isEmpty)).map
      (entryRow readFile curve)).Nodup := by
    apply List.Nodup.of_map (fun x : Nat × ℚ × ℚ × ℚ => x.1)
    rw [List.map_map]
    have hcomp : ((fun x : Nat × ℚ × ℚ × ℚ => x.1) ∘ entryRow readFile curve) =
        fun e => e.building_id := rfl
    rw [hcomp]
    exact ((List.filter_sublist c).map (fun e => e.building_id)).nodup hnd
  rw [List.perm_ext_iff_of_nodup hn1 hn2]
  intro x
  simp only [List.mem_map, List.mem_filter]
  constructor
  · rintro ⟨b, hb, rfl⟩
    rw [mem_groupKeys] at hb
    rcases (mem_chunk_ids readFile c b).mp hb with ⟨e, he, hne, rfl⟩
    refine ⟨e, ⟨he, ?_⟩, ?_⟩
    · simp [List.isEmpty_iff, hne]
    · rw [perBuildingFD_chunk readFile curve c hnd e he]
      rfl
  · rintro ⟨e, ⟨he, hp⟩, rfl⟩
    have hne : readFile e ≠ [] := by simpa [List.isEmpty_iff] using hp
    refine ⟨e.building_id, ?_, ?_⟩
    · rw [mem_groupKeys]
      exact (mem_chunk_ids readFile c e.building_id).mpr ⟨e, he, hne, rfl⟩
    · rw [perBuildingFD_chunk readFile curve c hnd e he]
      rfl

/-- Unfolding one step of the slicing loop. -/
theorem chunksOf_eq_cons (k : Nat) (hk : 0 < k) (l : List IndexEntry)
    (hl : l ≠ []) :
    chunksOf k l = l.take k :: chunksOf k (l.drop k) := by
  have hn : 1 ≤ l.length := List.length_pos.mpr hl
  have hm : (l.length + k - 1) / k = ((l.drop k).length + k - 1) / k + 1 := by
    rw [List.length_drop]
    have h1 : l.length + k - 1 = (l.length - 1) + k := by omega
    rw [h1, Nat.add_div_right _ hk]
    congr 1
    rcases le_or_lt l.length k with hle | hlt
    · have h2 : l.length - k = 0 := by omega
      rw [h2, Nat.div_eq_of_lt (by omega), Nat.div_eq_of_lt (by omega)]
    · have h3 : l.length - k + k - 1 = l.length - 1 := by omega
      rw [h3]
  simp only [chunksOf, hm, List.range_succ_eq_map, List.map_cons, List.map_map]
  refine congrArg₂ List.cons ?_ ?_
  · rw [Nat.zero_mul, List.drop_zero]
  · apply List.map_congr_left
    intro i _
    simp only [Function.comp]
    rw [List.drop_drop]
    congr 2
    rw [Nat.succ_mul, Nat.add_comm]

/-- The slices are a partition: concatenating them recovers the index. -/
theorem chunksOf_flatten (k : Nat) (hk : 0 < k) :
    ∀ (n : Nat) (l : List IndexEntry), l.length ≤ n →
      (chunksOf k l).flatten = l := by
  intro n
  induction n with
  | zero =>
      intro l hl
      have : l = [] := List.eq_nil_of_length_eq_zero (by omega)
      subst this
      have hz : (([] : List IndexEntry).length + k - 1) / k = 0 :=
        Nat.div_eq_of_lt (by simp; omega)
      simp [chunksOf, hz]
  | succ n ih =>
      intro l hl
      rcases eq_or_ne l [] with rfl | hne
      · have hz : (([] : List IndexEntry).length + k - 1) / k = 0 :=
          Nat.div_eq_of_lt (by simp; omega)
        simp [chunksOf, hz]
      · rw [chunksOf_eq_cons k hk l hne, List.flatten_cons,
          ih (l.drop k) (by rw [List.length_drop]; have := List.length_pos.mpr hne; omega),
          List.take_append_drop]

/-- Pointwise-related maps are `Forall₂`-related. -/
theorem forall₂_of_map {α β : Type} (R : β → β → Prop) (l : List α)
    (f g : α → β) (h : ∀ x ∈ l, R (f x) (g x)) :
    List.Forall₂ R (l.map f) (l.map g) := by
  induction l with
  | nil => exact List.Forall₂.nil
  | cons a l ih =>
      exact List.Forall₂.cons (h a (List.mem_cons_self a l))
        (ih (fun x hx => h x (List.mem_cons_of_mem a hx)))

/-- Any positive chunking of the driver produces, up to row order, the
canonical `projFD` rows — one per building with a nonempty file. -/
theorem bills_chunked_perm_canonical (idx : List IndexEntry)
    (readFile : IndexEntry → List FileRow) (curve : List (Nat × ℚ))
    (k : Nat) (hk : 0 < k)
    (hnd : (idx.map (fun e => e.building_id)).Nodup) :
    ((compute_bills_chunked idx readFile k curve).map projFD).Perm
      ((idx.filter (fun e => !(readFile e).isEmpty)).map
        (entryRow readFile curve)) := by
  simp only [compute_bills_chunked]
  rw [List.map_flatten, List.map_map]
  conv_rhs => rw [← chunksOf_flatten k hk idx.length idx le_rfl]
  rw [List.filter_flatten, List.map_flatten, List.map_map]
  apply List.Perm.flatten_congr
  apply forall₂_of_map
  intro c hc
  have hsub : c.Sublist idx := by
    simp only [chunksOf, List.mem_map, List.mem_range] at hc
    obtain ⟨i, _, rfl⟩ := hc
    exact (List.take_sublist _ _).trans (List.drop_sublist _ _)
  have hndc : (c.map (fun e => e.building_id)).Nodup :=
    (hsub.map (fun e => e.building_id)).nodup hnd
  simp only [Function.comp]
  by_cases hload : load_timeseries_for_buildings c readFile = []
  · rw [if_pos hload]
    have hall : ∀ e ∈ c, readFile e = [] := by
      intro e he
      simp only [load_timeseries_for_buildings, List.flatten_eq_nil_iff,
        List.mem_map] at hload
      have := hload ((readFile e).map (fun r =>
        RawRec.mk e.building_id e.upgrade_id r.timestamp r.uses)) ⟨e, he, rfl⟩
      simpa using this
    have hfilter : c.filter (fun e => !(readFile e).isEmpty) = [] := by
      apply List.filter_eq_nil_iff.mpr
      intro e he
      simp [List.isEmpty_iff, hall e he]
    rw [hfilter]
    simp
  · rw [if_neg hload]
    rw [load_eq_flatten_recsOf c readFile]
    exact chunk_rows_perm readFile curve c hndc

/-- C5 (amended): for a population whose index entries carry distinct
building ids, processing with any two positive chunk sizes (so chunk sizes
1, 7 and all-at-once in particular) yields the same multiset of
(building id, `annual_kwh`, `annual_cost_flat`, `annual_cost_dynamic`)
rows, independent of row order; the `annual_cost_tou` column is excluded
because the TOU conservation placement depends on the chunk composition
(see `c5_counterexample`). -/
theorem c5_chunked_equivalence (idx : List IndexEntry)
    (readFile : IndexEntry → List FileRow) (curve : List (Nat × ℚ))
    (k1 k2 : Nat) (hk1 : 0 < k1) (hk2 : 0 < k2)
    (hnd : (idx.map (fun e => e.building_id)).Nodup) :
    ((compute_bills_chunked idx readFile k1 curve).map projFD).Perm
      ((compute_bills_chunked idx readFile k2 curve).map projFD) :=
  (bills_chunked_perm_canonical idx readFile curve k1 hk1 hnd).trans
    (bills_chunked_perm_canonical idx readFile curve k2 hk2 hnd).symm

theorem c5_chunked_equivalence_witness :
    (0 < 1 ∧ 0 < 7 ∧ (c5Index.map (fun e => e.building_id)).Nodup) ∧
      ((compute_bills_chunked c5Index c5ReadFile 1 []).map projFD).Perm
        ((compute_bills_chunked c5Index c5ReadFile 7 []).map projFD) :=
  ⟨⟨by decide, by decide, by decide⟩,
    c5_chunked_equivalence c5Index c5ReadFile [] 1 7 (by decide) (by decide)
      (by decide)⟩
